import Mathlib

/-!
Verification development for the Redact web framework core
(`src/lib/redact.js`, the `Redact()` factory).

The engine is shallowly embedded: JavaScript runtime values are modelled by
`JSValue` (numbers as `Int`; the claims under study do not depend on
floating-point behaviour), route handlers by `Handler`, and the pieces of the
dispatch pipeline (`send`, `pathToRegex`, `getParamNames`, the static/dynamic
route tables, the middleware runner, the body reader and the HTTP server
callback) by the correspondingly named Lean functions below.  Asynchronous
code is modelled by its observable outcome: an awaited middleware or handler
either yields a value, or raises/rejects with an error message (JavaScript
`Error.message`).
-/

/-- A JavaScript runtime value, as far as the dispatch engine inspects it.
Functions are kept apart (see `Handler`), since the engine only ever checks
`typeof handler !== 'function'` at the handler position. -/
inductive JSValue where
  | vStr (s : String)
  | vNum (n : Int)
  | vBool (b : Bool)
  | vNull
  | vUndefined
  | vObj (fields : List (String × JSValue))
  | vArr (elems : List JSValue)

/-- JavaScript truthiness of a value (`if (x)`): `false`, `0`, the empty
string, `null` and `undefined` are falsy, every object/array is truthy. -/
def jsTruthy : JSValue → Bool
  | .vStr s => !(s == "")
  | .vNum n => !(n == 0)
  | .vBool b => b
  | .vNull => false
  | .vUndefined => false
  | .vObj _ => true
  | .vArr _ => true

/-- Models `typeof v === 'object'`.  Note that in JavaScript
`typeof null === 'object'` holds, so `vNull` is included. -/
def isObjType : JSValue → Bool
  | .vObj _ => true
  | .vArr _ => true
  | .vNull => true
  | _ => false

/-- The request context object `req` as the engine populates it:
`req.query` (built once from the query string), `req.params` (filled by a
dynamic route match), `req.body` (set only for POST/PUT after body reading;
`none` models the JavaScript `undefined`). -/
structure Req where
  method : String
  pathname : String
  query : List (String × String)
  params : List (String × String)
  body : Option JSValue

/-- Observable outcome of invoking a route handler function: a synchronous
return value, a synchronous throw, or a returned promise that resolves or
rejects.  The `String` is the error's `.message`. -/
inductive HandlerRes where
  | sync (v : JSValue)
  | syncThrow (msg : String)
  | asyncResolve (v : JSValue)
  | asyncReject (msg : String)

/-- A stored route handler: either a literal value (the engine sends it
directly) or a callable `(input, req) => ...`. -/
inductive Handler where
  | value (v : JSValue)
  | func (f : JSValue → Req → HandlerRes)

/-- Truthiness of a stored handler (`if (routeDef[method])`,
`if (!handler)`): functions are always truthy. -/
def handlerTruthy : Handler → Bool
  | .value v => jsTruthy v
  | .func _ => true

/-- Lower-case hexadecimal digit, for JSON control-character escapes. -/
def hexDigit (n : Nat) : Char :=
  if n < 10 then Char.ofNat (48 + n) else Char.ofNat (87 + n)

/-- JSON escaping of one character, as `JSON.stringify` performs it. -/
def escChar (c : Char) : String :=
  if c = '"' then "\\\""
  else if c = '\\' then "\\\\"
  else if c = '\n' then "\\n"
  else if c = '\r' then "\\r"
  else if c = '\t' then "\\t"
  else if c = Char.ofNat 8 then "\\b"
  else if c = Char.ofNat 12 then "\\f"
  else if c.toNat < 32 then
    "\\u00" ++ String.mk [hexDigit (c.toNat / 16), hexDigit (c.toNat % 16)]
  else String.singleton c

/-- JSON escaping of a string body. -/
def jsStringEscape (s : String) : String := String.join (s.data.map escChar)

mutual

/-- Models `JSON.stringify` (no pretty-printing), restricted to the value
model.  `undefined` at top level makes `JSON.stringify` return no string at
all; that case is unreachable from `send` (guarded by the `typeof` check)
and is given the placeholder `"undefined"`. -/
def jsonStringify : JSValue → String
  | .vNull => "null"
  | .vBool b => cond b "true" "false"
  | .vNum n => toString n
  | .vStr s => "\"" ++ jsStringEscape s ++ "\""
  | .vUndefined => "undefined"
  | .vArr l => "[" ++ String.intercalate "," (elemItems l) ++ "]"
  | .vObj fs => "\x7b" ++ String.intercalate "," (fieldItems fs) ++ "\x7d"

/-- Array elements as serialized items; `undefined` elements serialize as
`null`, as in `JSON.stringify`. -/
def elemItems : List JSValue → List String
  | [] => []
  | .vUndefined :: rest => "null" :: elemItems rest
  | v :: rest => jsonStringify v :: elemItems rest

/-- Object fields as serialized `"key":value` items; `undefined`-valued
properties are skipped, as in `JSON.stringify`. -/
def fieldItems : List (String × JSValue) → List String
  | [] => []
  | (_, .vUndefined) :: rest => fieldItems rest
  | (k, v) :: rest =>
    ("\"" ++ jsStringEscape k ++ "\":" ++ jsonStringify v) :: fieldItems rest

end

/-- Models `String(x)` for the values `send` applies it to (non-`'object'`
`typeof`s).  The object/array branches are dead code under `send`'s
`typeof` guard and carry the usual JavaScript renderings. -/
def jsToString : JSValue → String
  | .vStr s => s
  | .vNum n => toString n
  | .vBool b => cond b "true" "false"
  | .vNull => "null"
  | .vUndefined => "undefined"
  | .vObj _ => "[object Object]"
  | .vArr _ => ""

/-- An HTTP response frame as the engine produces it: status code,
`Content-Type` header, and body payload. -/
structure HttpResponse where
  status : Nat
  contentType : String
  body : String
deriving DecidableEq

/-- Models the internal `send(res, content, status = 200)` helper:
`typeof content === 'object'` picks `application/json` with
`JSON.stringify`, anything else `text/plain` with `String(...)`.
(The `res.headersSent` guard is represented by the at-most-one-response
structure of the dispatch model, which produces a single `HttpResponse`.) -/
def send (content : JSValue) (status : Nat) : HttpResponse :=
  { status := status
    contentType := if isObjType content then "application/json" else "text/plain"
    body := if isObjType content then jsonStringify content else jsToString content }

/-- A token of the compiled route pattern.  `pathToRegex` in the source
builds the regex string `"^" + path.replace(/:\w+/g, '([^/]+)') + "$"`;
we represent that anchored pattern as the token sequence obtained by the
same replacement: each `:\w+` run becomes `param` (the group `([^/]+)`),
every other character of the path is carried over verbatim as `lit c`.
The anchors `^`/`$` are reflected in the whole-string matching semantics
(`rcap` accepts exactly the full input). -/
inductive PTok where
  | lit (c : Char)
  | param

/-- Membership in the JavaScript regex class `\w`, i.e. `[A-Za-z0-9_]`. -/
def isWordChar (c : Char) : Bool := c.isAlpha || c.isDigit || c = '_'

/-- Models `pathToRegex`: the global replacement of `:\w+` by the capture
group `([^/]+)` over the path's characters.  A `:` not followed by a word
character is left in place, exactly as `String.prototype.replace` leaves
unmatched text untouched. -/
def pathToRegex : List Char → List PTok
  | [] => []
  | c :: rest =>
    if c = ':' ∧ rest.takeWhile isWordChar ≠ [] then
      .param :: pathToRegex (rest.dropWhile isWordChar)
    else
      .lit c :: pathToRegex rest
termination_by l => l.length
decreasing_by
  · simp only [List.length_cons]
    have := (List.dropWhile_sublist (l := rest) isWordChar).length_le
    omega
  · simp only [List.length_cons]
    omega

/-- Models `getParamNames`: the global scan `path.match(/:\w+/g)` with the
leading `:` stripped from each match. -/
def getParamNames : List Char → List String
  | [] => []
  | c :: rest =>
    if c = ':' ∧ rest.takeWhile isWordChar ≠ [] then
      String.mk (rest.takeWhile isWordChar) :: getParamNames (rest.dropWhile isWordChar)
    else
      getParamNames rest
termination_by l => l.length
decreasing_by
  · simp only [List.length_cons]
    have := (List.dropWhile_sublist (l := rest) isWordChar).length_le
    omega
  · simp only [List.length_cons]
    omega

/-- JavaScript line terminators, the characters the regex `.` does not
match. -/
def lineTerm (c : Char) : Bool :=
  c = '\n' || c = '\r' || c = Char.ofNat 0x2028 || c = Char.ofNat 0x2029

/-- Matching of one literal pattern character against one input character.
`pathToRegex` performs no escaping, so a path character lands in the regex
as regex syntax: `.` matches any non-line-terminator character instead of
only itself.  Other characters match themselves.  (The model covers the
regexes `pathToRegex` produces from paths whose characters are `.` or
regex-ordinary; paths containing further metacharacters such as `*` or
`(` would produce regexes outside this fragment.) -/
def charLitMatch (c x : Char) : Bool :=
  if c = '.' then !(lineTerm x) else c = x

mutual

/-- Anchored matching with capture extraction: `rcap toks s` models
`s.match(new RegExp(pattern))` for the anchored pattern represented by
`toks`, returning the list of `([^/]+)` captures on success.  The group is
greedy: `pcap` extends the current capture as far as possible before
letting the remainder of the pattern consume input. -/
def rcap : List PTok → List Char → Option (List (List Char))
  | [], [] => some []
  | [], _ :: _ => none
  | .lit _ :: _, [] => none
  | .lit c :: ts, x :: xs => if charLitMatch c x then rcap ts xs else none
  | .param :: _, [] => none
  | .param :: ts, x :: xs => if x = '/' then none else pcap ts [x] xs
termination_by ts s => (ts.length + s.length, 0)

/-- Greedy continuation of a `([^/]+)` group: `acc` is the reversed capture
so far (nonempty), `s` the remaining input. -/
def pcap : List PTok → List Char → List Char → Option (List (List Char))
  | ts, acc, [] => (rcap ts []).map (fun caps => acc.reverse :: caps)
  | ts, acc, x :: xs =>
    if x = '/' then (rcap ts (x :: xs)).map (fun caps => acc.reverse :: caps)
    else
      match pcap ts (x :: acc) xs with
      | some r => some r
      | none => (rcap ts (x :: xs)).map (fun caps => acc.reverse :: caps)
termination_by ts _ s => (ts.length + s.length, 1)

end

/-- Whether the compiled pattern matches the concrete path at all
(`pathname.match(route.regex)` being non-null). -/
def rtest (ts : List PTok) (s : List Char) : Bool := (rcap ts s).isSome

/-- Property lookup on a JavaScript object modelled as an ordered
association list: `obj[key]`, `none` standing for `undefined`. -/
def lookupObj {α : Type} : List (String × α) → String → Option α
  | [], _ => none
  | (k, v) :: rest, key => if k = key then some v else lookupObj rest key

/-- Property assignment `obj[key] = v`: overwrite in place if the key
exists, append otherwise (JavaScript keeps first-insertion order). -/
def setKey {α : Type} : List (String × α) → String → α → List (String × α)
  | [], key, v => [(key, v)]
  | (k, w) :: rest, key, v =>
    if k = key then (k, v) :: rest else (k, w) :: setKey rest key v

/-- In-place update of an existing property (`obj[key].push(...)` style):
apply `f` to the value stored at `key`, leave the object unchanged if the
key is absent. -/
def updateKey {α : Type} : List (String × α) → String → (α → α) → List (String × α)
  | [], _, _ => []
  | (k, v) :: rest, key, f =>
    if k = key then (k, f v) :: rest else (k, v) :: updateKey rest key f

/-- One entry of a per-method dynamic route list:
`{ regex: pathToRegex(path), paramNames: getParamNames(path), handler }`. -/
structure DynRoute where
  regex : List PTok
  paramNames : List String
  handler : Handler

/-- The static route storage `staticRoutes`: an object keyed by method
name, each value an object keyed by exact path. -/
def StaticTable : Type := List (String × List (String × Handler))

/-- The dynamic route storage `dynamicRoutes`: an object keyed by method
name, each value an ordered list of compiled routes. -/
def DynTable : Type := List (String × List DynRoute)

/-- Initial `staticRoutes = { GET: {}, POST: {}, PUT: {}, DELETE: {} }`. -/
def initStatic : StaticTable :=
  [("GET", []), ("POST", []), ("PUT", []), ("DELETE", [])]

/-- Initial `dynamicRoutes = { GET: [], POST: [], PUT: [], DELETE: [] }`. -/
def initDynamic : DynTable :=
  [("GET", []), ("POST", []), ("PUT", []), ("DELETE", [])]

/-- One route definition passed to `app.routes(...)`: a `path` property
(`none` models an absent/undefined path) and per-method handler
properties. -/
structure RouteDef where
  path : Option String
  entries : List (String × Handler)

/-- Models `path.includes(':')`. -/
def hasColon (p : String) : Bool := p.data.contains ':'

/-- The per-method body of `registerRoutes`: `if (routeDef[method])`,
then push onto the dynamic list when the path contains `:`, else insert
into the static mapping (overwriting any prior handler). -/
def registerMethod (p : String) (rd : RouteDef) (t : StaticTable × DynTable)
    (m : String) : StaticTable × DynTable :=
  match lookupObj rd.entries m with
  | none => t
  | some h =>
    if handlerTruthy h then
      if hasColon p then
        (t.1, updateKey t.2 m (fun l =>
          l ++ [⟨pathToRegex p.data, getParamNames p.data, h⟩]))
      else
        (updateKey t.1 m (fun tbl => setKey tbl p h), t.2)
    else t

/-- Registration of one route definition: skipped entirely when `path` is
falsy (`if (!path) return`), otherwise processed for each of the four
methods in order. -/
def registerOne (t : StaticTable × DynTable) (rd : RouteDef) :
    StaticTable × DynTable :=
  match rd.path with
  | none => t
  | some p =>
    if p = "" then t
    else ["GET", "POST", "PUT", "DELETE"].foldl (registerMethod p rd) t

/-- Models `registerRoutes(...args)`: fold all route definitions into the
initially empty tables. -/
def registerRoutes (defs : List RouteDef) : StaticTable × DynTable :=
  defs.foldl registerOne (initStatic, initDynamic)

/-- Models `staticRoutes[method]?.[pathname]` (optional chaining: an
unknown method yields `undefined`, not a crash). -/
def lookupStatic (sr : StaticTable) (m p : String) : Option Handler :=
  match lookupObj sr m with
  | none => none
  | some tbl => lookupObj tbl p

/-- The dynamic scan: first route whose regex matches the pathname, with
its captures (`break` after the first hit). -/
def findDyn : List DynRoute → List Char → Option (DynRoute × List String)
  | [], _ => none
  | r :: rest, p =>
    match rcap r.regex p with
    | some caps => some (r, caps.map String.mk)
    | none => findDyn rest p

/-- Truthiness of the looked-up `handler` variable (the `if (!handler)`
and `if (handler)` checks): `undefined` and stored falsy values both fail
the check. -/
def optHandlerTruthy : Option Handler → Bool
  | none => false
  | some h => handlerTruthy h

/-- Steps A and B of `executeHandler`: the static O(1) lookup, and — only
when that produced a falsy `handler` — the dynamic regex scan with
`req.params` extraction (`paramNames` zipped against the captures). -/
def handlerAndParams (sr : StaticTable) (dr : DynTable) (m p : String) :
    Option Handler × List (String × String) :=
  let h0 := lookupStatic sr m p
  if optHandlerTruthy h0 then (h0, [])
  else
    match findDyn ((lookupObj dr m).getD []) p.data with
    | some (r, caps) => (some r.handler, r.paramNames.zip caps)
    | none => (h0, [])

/-- The 404 response `send(res, { error: "Not Found" }, 404)`. -/
def notFoundResp : HttpResponse :=
  send (.vObj [("error", .vStr "Not Found")]) 404

/-- The handler's first argument: `const input = req.body || {}`. -/
def inputOf (req : Req) : JSValue :=
  match req.body with
  | none => .vObj []
  | some b => if jsTruthy b then b else .vObj []

/-- Step C of `executeHandler`: a non-function handler is sent as-is
(status 200); a function is invoked with `(input, req)` — a synchronous
value or a resolved promise is sent with status 200, a synchronous throw
is caught and answered with 500 including `error.message` under
`details`, a rejected promise is answered with the bare 500 body. -/
def runHandler (h : Handler) (req : Req) : HttpResponse :=
  match h with
  | .value v => send v 200
  | .func f =>
    match f (inputOf req) req with
    | .sync v => send v 200
    | .syncThrow msg =>
      send (.vObj [("error", .vStr "Internal Server Error"),
                   ("details", .vStr msg)]) 500
    | .asyncResolve v => send v 200
    | .asyncReject _ =>
      send (.vObj [("error", .vStr "Internal Server Error")]) 500

/-- The whole `executeHandler` closure: resolve the handler (static first,
then dynamic), run it if truthy, else 404. -/
def executeHandler (sr : StaticTable) (dr : DynTable) (req : Req) :
    HttpResponse :=
  let hp := handlerAndParams sr dr req.method req.pathname
  match hp.1 with
  | some h =>
    if handlerTruthy h then runHandler h { req with params := hp.2 }
    else notFoundResp
  | none => notFoundResp

/-- Observable outcome of an awaited middleware call: the resolved value
(`vUndefined` meaning "continue"), or a throw/rejection with the error's
message. -/
inductive MwRes where
  | ret (v : JSValue)
  | raise (msg : String)

/-- A registered middleware `(req) => ...`. -/
def Mw : Type := Req → MwRes

/-- The middleware runner: in registration order, `await mw(req)`; a
non-`undefined` result is sent immediately (status 200) and stops the
request; a throw is answered with the 500 middleware-error body.
`none` means the chain completed without responding. -/
def runMw : List Mw → Req → Option HttpResponse
  | [], _ => none
  | mw :: rest, req =>
    match mw req with
    | .raise _ =>
      some (send (.vObj [("error", .vStr "Internal Middleware Error")]) 500)
    | .ret v =>
      match v with
      | .vUndefined => runMw rest req
      | _ => some (send v 200)

/-- How many middleware of the chain are actually invoked for a request
(the side-effect counter of the spec's testable property). -/
def mwExecCount : List Mw → Req → Nat
  | [], _ => 0
  | mw :: rest, req =>
    match mw req with
    | .raise _ => 1
    | .ret v =>
      match v with
      | .vUndefined => 1 + mwExecCount rest req
      | _ => 1

/-- The body-size cap `MAX_BODY_SIZE = 1e6`. -/
def MAX_BODY_SIZE : Nat := 1000000

/-- The `data`-event accumulator: `received += chunk.length`; once the
running total exceeds `MAX_BODY_SIZE` the connection is destroyed
(`none`) and no response frame is ever sent; otherwise the chunk is
appended. -/
def readBodyAux : List String → Nat → String → Option String
  | [], _, body => some body
  | c :: rest, received, body =>
    if received + c.length > MAX_BODY_SIZE then none
    else readBodyAux rest (received + c.length) (body ++ c)

/-- Body ingestion for one request, starting from `received = 0`,
`body = ''`. -/
def readBody (chunks : List String) : Option String := readBodyAux chunks 0 ""

/-- Total size of a request body split into chunks. -/
def totalLen (chunks : List String) : Nat := (chunks.map String.length).sum

/-- The fully accumulated body text. -/
def concatChunks : List String → String
  | [] => ""
  | c :: rest => c ++ concatChunks rest

/-- The `end`-event body assignment
`req.body = body ? JSON.parse(body) : {}` inside `try/catch`: an empty
accumulation yields `{}` without parsing; a parse failure (`parse` is the
`JSON.parse` oracle, `none` modelling a thrown `SyntaxError`) is swallowed
and also yields `{}`. -/
def parsedBody (parse : String → Option JSValue) (body : String) : JSValue :=
  if body = "" then .vObj []
  else
    match parse body with
    | some v => v
    | none => .vObj []

/-- Split a character list at every occurrence of `sep` (the pieces of
`a&b&c`). -/
def splitOnChar (sep : Char) : List Char → List (List Char)
  | [] => [[]]
  | c :: rest =>
    let r := splitOnChar sep rest
    if c = sep then [] :: r
    else
      match r with
      | [] => [[c]]
      | piece :: more => (c :: piece) :: more

/-- One `key=value` piece of the query string: the key is everything
before the first `=`, the value everything after it (empty when there is
no `=`).  Percent-decoding is not modelled; no claim depends on it. -/
def pairOfPiece (p : List Char) : String × String :=
  (String.mk (p.takeWhile (fun c => c ≠ '=')),
   String.mk ((p.dropWhile (fun c => c ≠ '=')).drop 1))

/-- The ordered `[key, value]` pairs of `parsedURL.searchParams`: split on
`&`, drop empty pieces, split each piece at its first `=`. -/
def searchParamsPairs (qs : String) : List (String × String) :=
  ((splitOnChar '&' qs.data).filter (fun p => p ≠ [])).map pairOfPiece

/-- Models `Object.fromEntries(pairs)`: assign every pair in order, later
occurrences of a key overwriting earlier ones. -/
def fromEntries (ps : List (String × String)) : List (String × String) :=
  ps.foldl (fun m kv => setKey m kv.1 kv.2) []

/-- Models `req.query = Object.fromEntries(parsedURL.searchParams)`, built once
per request from the raw query string. -/
def queryOf (qs : String) : List (String × String) := fromEntries (searchParamsPairs qs)

/-- The request context at the start of the server callback: `req.query`
populated, `req.params` and `req.body` not yet set (middleware runs before
both). -/
def initReq (method pathname qs : String) : Req :=
  { method := method, pathname := pathname, query := queryOf qs
    params := [], body := none }

/-- Observable outcome of one request: a single HTTP response frame, or a
forcibly destroyed connection with no response at all. -/
inductive Outcome where
  | response (r : HttpResponse)
  | destroyed
deriving DecidableEq

/-- The HTTP server callback: parse the URL and query, run the middleware
chain (a middleware response or error ends the request before any body is
read), then for POST/PUT ingest the body under the size cap (overflow
destroys the connection) and parse it leniently, and finally resolve and
run the route handler.  `parse` is the `JSON.parse` oracle. -/
def dispatch (parse : String → Option JSValue) (mws : List Mw)
    (sr : StaticTable) (dr : DynTable)
    (method pathname qs : String) (chunks : List String) : Outcome :=
  let req0 := initReq method pathname qs
  match runMw mws req0 with
  | some resp => .response resp
  | none =>
    if method = "POST" ∨ method = "PUT" then
      match readBody chunks with
      | none => .destroyed
      | some bodyStr =>
        .response (executeHandler sr dr
          { req0 with body := some (parsedBody parse bodyStr) })
    else .response (executeHandler sr dr req0)

/-- Specification-side characterization of one anchored pattern match
(used to settle the Path Matcher claim): the input is exactly the
concatenation demanded by the tokens — each literal token contributes its
own character, each parameter token a nonempty run of non-`/`
characters. -/
inductive SegMatch : List PTok → List Char → Prop where
  | nil : SegMatch [] []
  | lit (c : Char) (ts : List PTok) (s : List Char) :
      SegMatch ts s → SegMatch (.lit c :: ts) (c :: s)
  | param (seg : List Char) (ts : List PTok) (s : List Char) :
      seg ≠ [] → (∀ c ∈ seg, c ≠ '/') → SegMatch ts s →
      SegMatch (.param :: ts) (seg ++ s)

/-- A character that is not a regex metacharacter (matched literally by
the unescaped pattern). -/
def regexOrdinary (c : Char) : Bool :=
  !([ '.', '*', '+', '?', '(', ')', '[', ']',
      Char.ofNat 123, Char.ofNat 125, '\\', '^', '$', '|' ].contains c)

/-! ### Infrastructure lemmas -/

theorem lookupObj_setKey {α : Type} (l : List (String × α)) (k : String) (v : α)
    (k' : String) :
    lookupObj (setKey l k v) k' = if k = k' then some v else lookupObj l k' := by
  induction l with
  | nil => simp [setKey, lookupObj]
  | cons kv rest ih =>
    obtain ⟨kk, vv⟩ := kv
    by_cases h1 : kk = k
    · subst h1
      by_cases h2 : kk = k' <;> simp [setKey, lookupObj, h2]
    · by_cases h2 : kk = k'
      · subst h2
        have h3 : ¬ (k = kk) := fun h => h1 h.symm
        simp [setKey, lookupObj, h1, h3]
      · simp [setKey, lookupObj, h1, h2, ih]

theorem lookupObj_updateKey {α : Type} (l : List (String × α)) (k : String)
    (f : α → α) (k' : String) :
    lookupObj (updateKey l k f) k'
      = if k = k' then (lookupObj l k').map f else lookupObj l k' := by
  induction l with
  | nil => simp [updateKey, lookupObj]
  | cons kv rest ih =>
    obtain ⟨kk, vv⟩ := kv
    by_cases h1 : kk = k
    · subst h1
      by_cases h2 : kk = k' <;> simp [updateKey, lookupObj, h2]
    · by_cases h2 : kk = k'
      · subst h2
        have h3 : ¬ (k = kk) := fun h => h1 h.symm
        simp [updateKey, lookupObj, h1, h3]
      · simp [updateKey, lookupObj, h1, h2, ih]

theorem foldl_preserves {α β : Type} (step : α → β → α) (P : α → Prop)
    (hstep : ∀ a b, P a → P (step a b)) :
    ∀ (l : List β) (init : α), P init → P (l.foldl step init)
  | [], _, h => h
  | b :: l, init, h =>
    foldl_preserves step P hstep l (step init b) (hstep init b h)

theorem runMw_continue (mws : List Mw) (req : Req)
    (h : ∀ mw ∈ mws, mw req = .ret .vUndefined) : runMw mws req = none := by
  induction mws with
  | nil => rfl
  | cons mw rest ih =>
    have h1 := h mw (by simp)
    simp only [runMw, h1]
    exact ih (fun m hm => h m (by simp [hm]))

theorem runMw_append (pre rest : List Mw) (req : Req)
    (h : ∀ mw ∈ pre, mw req = .ret .vUndefined) :
    runMw (pre ++ rest) req = runMw rest req
    ∧ mwExecCount (pre ++ rest) req = pre.length + mwExecCount rest req := by
  induction pre with
  | nil => simp
  | cons mw p ih =>
    have h1 := h mw (by simp)
    have ih2 := ih (fun m hm => h m (by simp [hm]))
    simp only [List.cons_append, runMw, mwExecCount, h1, List.length_cons,
      List.append_eq]
    refine ⟨ih2.1, ?_⟩
    have h2 := ih2.2
    omega

theorem runMw_stop (m : Mw) (post : List Mw) (req : Req) (v : JSValue)
    (hm : m req = .ret v) (hv : v ≠ .vUndefined) :
    runMw (m :: post) req = some (send v 200)
    ∧ mwExecCount (m :: post) req = 1 := by
  simp only [runMw, mwExecCount, hm]
  cases v <;> simp_all

theorem readBodyAux_complete (chunks : List String) :
    ∀ (received : Nat) (body : String),
      received + totalLen chunks ≤ MAX_BODY_SIZE →
      readBodyAux chunks received body = some (body ++ concatChunks chunks) := by
  induction chunks with
  | nil => intro received body _; simp [readBodyAux, concatChunks]
  | cons c rest ih =>
    intro received body h
    have hlen : c.length + totalLen rest = totalLen (c :: rest) := by
      simp [totalLen]
    have hc : ¬ (received + c.length > MAX_BODY_SIZE) := by omega
    simp only [readBodyAux, if_neg hc]
    rw [ih (received + c.length) (body ++ c) (by omega)]
    simp [concatChunks, String.append_assoc]

theorem readBodyAux_overflow (chunks : List String) :
    ∀ (received : Nat) (body : String),
      received ≤ MAX_BODY_SIZE →
      MAX_BODY_SIZE < received + totalLen chunks →
      readBodyAux chunks received body = none := by
  induction chunks with
  | nil =>
    intro received body h1 h2
    simp [totalLen] at h2
    omega
  | cons c rest ih =>
    intro received body h1 h2
    have hlen : c.length + totalLen rest = totalLen (c :: rest) := by
      simp [totalLen]
    by_cases hc : received + c.length > MAX_BODY_SIZE
    · simp [readBodyAux, hc]
    · simp only [readBodyAux, if_neg hc]
      exact ih (received + c.length) (body ++ c) (by omega) (by omega)

theorem readBody_complete (chunks : List String)
    (h : totalLen chunks ≤ MAX_BODY_SIZE) :
    readBody chunks = some (concatChunks chunks) := by
  have := readBodyAux_complete chunks 0 "" (by omega)
  simpa [readBody] using this

theorem readBody_overflow (chunks : List String)
    (h : MAX_BODY_SIZE < totalLen chunks) :
    readBody chunks = none :=
  readBodyAux_overflow chunks 0 "" (by simp [MAX_BODY_SIZE]) (by omega)

theorem lookupStatic_eq (sr : StaticTable) (m p : String) (h : Handler)
    (hl : lookupStatic sr m p = some h) :
    ∃ tbl, lookupObj sr m = some tbl ∧ lookupObj tbl p = some h := by
  unfold lookupStatic at hl
  cases he : lookupObj sr m with
  | none => rw [he] at hl; exact absurd hl (by simp)
  | some tbl => rw [he] at hl; exact ⟨tbl, rfl, hl⟩

theorem registerMethod_truthy (p : String) (rd : RouteDef)
    (t : StaticTable × DynTable) (m : String)
    (hinv : ∀ m' p' h, lookupStatic t.1 m' p' = some h → handlerTruthy h = true) :
    ∀ m' p' h, lookupStatic (registerMethod p rd t m).1 m' p' = some h →
      handlerTruthy h = true := by
  intro m' p' h hl
  cases he : lookupObj rd.entries m with
  | none =>
    simp only [registerMethod, he] at hl
    exact hinv _ _ _ hl
  | some hh =>
    simp only [registerMethod, he] at hl
    by_cases ht : handlerTruthy hh = true
    · rw [if_pos ht] at hl
      by_cases hcol : hasColon p = true
      · rw [if_pos hcol] at hl
        exact hinv _ _ _ hl
      · rw [if_neg hcol] at hl
        obtain ⟨tbl, htbl, hp⟩ := lookupStatic_eq _ _ _ _ hl
        rw [lookupObj_updateKey] at htbl
        by_cases hmm : m = m'
        · rw [if_pos hmm] at htbl
          cases ho : lookupObj t.1 m' with
          | none => rw [ho] at htbl; exact absurd htbl (by simp)
          | some tbl0 =>
            rw [ho] at htbl
            simp only [Option.map_some'] at htbl
            obtain rfl : setKey tbl0 p hh = tbl := Option.some_injective _ htbl
            rw [lookupObj_setKey] at hp
            by_cases hpp : p = p'
            · rw [if_pos hpp] at hp
              cases hp
              exact ht
            · rw [if_neg hpp] at hp
              exact hinv m' p' h (by unfold lookupStatic; rw [ho]; exact hp)
        · rw [if_neg hmm] at htbl
          exact hinv m' p' h (by unfold lookupStatic; rw [htbl]; exact hp)
    · rw [if_neg ht] at hl
      exact hinv _ _ _ hl

theorem registerOne_truthy (t : StaticTable × DynTable) (rd : RouteDef)
    (hinv : ∀ m' p' h, lookupStatic t.1 m' p' = some h → handlerTruthy h = true) :
    ∀ m' p' h, lookupStatic (registerOne t rd).1 m' p' = some h →
      handlerTruthy h = true := by
  cases hpath : rd.path with
  | none => simp only [registerOne, hpath]; exact hinv
  | some p =>
    by_cases hp : p = ""
    · simp only [registerOne, hpath, if_pos hp]; exact hinv
    · simp only [registerOne, hpath, if_neg hp]
      exact foldl_preserves (registerMethod p rd)
        (fun t => ∀ m' p' h, lookupStatic t.1 m' p' = some h → handlerTruthy h = true)
        (fun t m hi => registerMethod_truthy p rd t m hi) _ t hinv

theorem initStatic_truthy :
    ∀ m p h, lookupStatic initStatic m p = some h → handlerTruthy h = true := by
  intro m p h hl
  obtain ⟨tbl, htbl, hp⟩ := lookupStatic_eq _ _ _ _ hl
  have : tbl = [] := by
    simp only [initStatic, lookupObj] at htbl
    split_ifs at htbl <;> simp_all
  subst this
  exact absurd hp (by simp [lookupObj])

theorem registerRoutes_truthy (defs : List RouteDef) :
    ∀ m p h, lookupStatic (registerRoutes defs).1 m p = some h →
      handlerTruthy h = true := by
  unfold registerRoutes
  exact foldl_preserves registerOne
    (fun t => ∀ m' p' h, lookupStatic t.1 m' p' = some h → handlerTruthy h = true)
    (fun t rd hi => registerOne_truthy t rd hi) defs (initStatic, initDynamic)
    initStatic_truthy

theorem lookupObj_updateKey_none {α : Type} (l : List (String × α)) (k m : String)
    (f : α → α) (h : lookupObj l m = none) : lookupObj (updateKey l k f) m = none := by
  rw [lookupObj_updateKey]
  split_ifs with hk
  · rw [h]; rfl
  · exact h

theorem registerMethod_unknown (p : String) (rd : RouteDef)
    (t : StaticTable × DynTable) (k m : String)
    (h : lookupObj t.1 m = none ∧ lookupObj t.2 m = none) :
    lookupObj (registerMethod p rd t k).1 m = none
    ∧ lookupObj (registerMethod p rd t k).2 m = none := by
  obtain ⟨h1, h2⟩ := h
  cases he : lookupObj rd.entries k with
  | none => simp only [registerMethod, he]; exact ⟨h1, h2⟩
  | some hh =>
    simp only [registerMethod, he]
    split_ifs with ht hcol
    · exact ⟨h1, lookupObj_updateKey_none _ _ _ _ h2⟩
    · exact ⟨lookupObj_updateKey_none _ _ _ _ h1, h2⟩
    · exact ⟨h1, h2⟩

theorem registerOne_unknown (t : StaticTable × DynTable) (rd : RouteDef) (m : String)
    (h : lookupObj t.1 m = none ∧ lookupObj t.2 m = none) :
    lookupObj (registerOne t rd).1 m = none
    ∧ lookupObj (registerOne t rd).2 m = none := by
  cases hpath : rd.path with
  | none => simp only [registerOne, hpath]; exact h
  | some p =>
    by_cases hp : p = ""
    · simp only [registerOne, hpath, if_pos hp]; exact h
    · simp only [registerOne, hpath, if_neg hp]
      exact foldl_preserves (registerMethod p rd)
        (fun t => lookupObj t.1 m = none ∧ lookupObj t.2 m = none)
        (fun t k hk => registerMethod_unknown p rd t k m hk) _ t h

theorem registerRoutes_unknown_method (defs : List RouteDef) (m : String)
    (hm : m ∉ (["GET", "POST", "PUT", "DELETE"] : List String)) :
    lookupObj (registerRoutes defs).1 m = none
    ∧ lookupObj (registerRoutes defs).2 m = none := by
  unfold registerRoutes
  refine foldl_preserves registerOne
    (fun t => lookupObj t.1 m = none ∧ lookupObj t.2 m = none)
    (fun t rd ht => registerOne_unknown t rd m ht) defs (initStatic, initDynamic)
    ?_
  simp only [List.mem_cons, List.not_mem_nil, or_false, not_or] at hm
  obtain ⟨n1, n2, n3, n4⟩ := hm
  constructor <;>
    simp [initStatic, initDynamic, lookupObj, Ne.symm n1, Ne.symm n2, Ne.symm n3,
      Ne.symm n4]

theorem lookupObj_fromEntries_aux (ps : List (String × String)) :
    ∀ (acc : List (String × String)) (k : String),
      lookupObj (ps.foldl (fun m kv => setKey m kv.1 kv.2) acc) k
        = ((ps.reverse.find? (fun e => decide (e.1 = k))).map Prod.snd).or
            (lookupObj acc k) := by
  induction ps with
  | nil => intro acc k; simp
  | cons kv rest ih =>
    intro acc k
    simp only [List.foldl_cons, List.reverse_cons, List.find?_append]
    rw [ih]
    cases hfind : rest.reverse.find? (fun e => decide (e.1 = k)) with
    | some e => simp [hfind]
    | none =>
      simp only [hfind, Option.none_or, Option.map]
      rw [lookupObj_setKey]
      by_cases hk : kv.1 = k
      · simp [List.find?, hk]
      · simp [List.find?, hk]

theorem queryOf_last_wins (qs k : String) :
    lookupObj (queryOf qs) k
      = ((searchParamsPairs qs).reverse.find? (fun e => decide (e.1 = k))).map
          Prod.snd := by
  have h := lookupObj_fromEntries_aux (searchParamsPairs qs) [] k
  simpa [queryOf, fromEntries, lookupObj] using h

theorem pcap_isSome (ts : List PTok) (s : List Char) :
    ∀ acc, (pcap ts acc s).isSome = true ↔
      ∃ a b, s = a ++ b ∧ (∀ c ∈ a, c ≠ '/') ∧ (rcap ts b).isSome = true := by
  induction s with
  | nil =>
    intro acc
    simp only [pcap, Option.isSome_map']
    constructor
    · intro h
      exact ⟨[], [], rfl, by simp, h⟩
    · rintro ⟨a, b, hab, _, h⟩
      obtain ⟨rfl, rfl⟩ := List.append_eq_nil.mp hab.symm
      exact h
  | cons x xs ih =>
    intro acc
    by_cases hx : x = '/'
    · subst hx
      have hstep : pcap ts acc ('/' :: xs)
          = (rcap ts ('/' :: xs)).map (fun caps => acc.reverse :: caps) := by
        simp [pcap]
      rw [hstep, Option.isSome_map']
      constructor
      · intro h
        exact ⟨[], '/' :: xs, rfl, by simp, h⟩
      · rintro ⟨a, b, hab, ha, h⟩
        rcases a with _ | ⟨a0, arest⟩
        · simp only [List.nil_append] at hab
          subst hab
          exact h
        · rw [List.cons_append] at hab
          obtain ⟨hx0, hxs⟩ := List.cons.inj hab
          exact absurd hx0.symm (ha a0 (by simp))
    · have hiff := ih (x :: acc)
      cases hrec : pcap ts (x :: acc) xs with
      | some r =>
        have hstep : pcap ts acc (x :: xs) = some r := by
          simp [pcap, hx, hrec]
        rw [hstep]
        simp only [Option.isSome_some, true_iff]
        have hsome : (pcap ts (x :: acc) xs).isSome = true := by simp [hrec]
        obtain ⟨a, b, hab, ha, h⟩ := hiff.mp hsome
        refine ⟨x :: a, b, by simp [hab], ?_, h⟩
        intro c hc
        rcases List.mem_cons.mp hc with rfl | hc
        · exact hx
        · exact ha c hc
      | none =>
        have hstep : pcap ts acc (x :: xs)
            = (rcap ts (x :: xs)).map (fun caps => acc.reverse :: caps) := by
          simp [pcap, hx, hrec]
        rw [hstep, Option.isSome_map']
        constructor
        · intro h
          exact ⟨[], x :: xs, rfl, by simp, h⟩
        · rintro ⟨a, b, hab, ha, h⟩
          rcases a with _ | ⟨a0, arest⟩
          · simp only [List.nil_append] at hab
            subst hab
            exact h
          · rw [List.cons_append] at hab
            obtain ⟨hx0, hxs⟩ := List.cons.inj hab
            subst hx0
            have hsome : (pcap ts (x :: acc) xs).isSome = true :=
              hiff.mpr ⟨arest, b, hxs, fun c hc => ha c (by simp [hc]), h⟩
            rw [hrec] at hsome
            exact absurd hsome (by simp)

theorem rcap_param_isSome (ts : List PTok) (s : List Char) :
    (rcap (.param :: ts) s).isSome = true ↔
      ∃ a b, s = a ++ b ∧ a ≠ [] ∧ (∀ c ∈ a, c ≠ '/')
        ∧ (rcap ts b).isSome = true := by
  cases s with
  | nil =>
    have hstep : rcap (.param :: ts) ([] : List Char) = none := by simp [rcap]
    rw [hstep]
    simp only [Option.isSome_none, Bool.false_eq_true, false_iff]
    rintro ⟨a, b, hab, hne, _, _⟩
    obtain ⟨rfl, rfl⟩ := List.append_eq_nil.mp hab.symm
    exact hne rfl
  | cons x xs =>
    by_cases hx : x = '/'
    · subst hx
      have hstep : rcap (.param :: ts) ('/' :: xs) = none := by simp [rcap]
      rw [hstep]
      simp only [Option.isSome_none, Bool.false_eq_true, false_iff]
      rintro ⟨a, b, hab, hne, ha, _⟩
      rcases a with _ | ⟨a0, arest⟩
      · exact hne rfl
      · rw [List.cons_append] at hab
        obtain ⟨hx0, hxs⟩ := List.cons.inj hab
        exact absurd hx0.symm (ha a0 (by simp))
    · have hstep : rcap (.param :: ts) (x :: xs) = pcap ts [x] xs := by
        simp [rcap, hx]
      rw [hstep, pcap_isSome ts xs [x]]
      constructor
      · rintro ⟨a, b, hab, ha, h⟩
        refine ⟨x :: a, b, by simp [hab], by simp, ?_, h⟩
        intro c hc
        rcases List.mem_cons.mp hc with rfl | hc
        · exact hx
        · exact ha c hc
      · rintro ⟨a, b, hab, hne, ha, h⟩
        rcases a with _ | ⟨a0, arest⟩
        · exact absurd rfl hne
        · rw [List.cons_append] at hab
          obtain ⟨hx0, hxs⟩ := List.cons.inj hab
          subst hx0
          exact ⟨arest, b, hxs, fun c hc => ha c (by simp [hc]), h⟩

theorem rtest_iff_SegMatch (ts : List PTok)
    (hord : ∀ c, PTok.lit c ∈ ts → regexOrdinary c = true) :
    ∀ s, rtest ts s = true ↔ SegMatch ts s := by
  induction ts with
  | nil =>
    intro s
    cases s with
    | nil =>
      simp only [rtest, rcap, Option.isSome_some, true_iff]
      exact SegMatch.nil
    | cons x xs =>
      simp only [rtest, rcap, Option.isSome_none, Bool.false_eq_true, false_iff]
      intro h
      cases h
  | cons t ts ih =>
    have hord' : ∀ c, PTok.lit c ∈ ts → regexOrdinary c = true :=
      fun c hc => hord c (List.mem_cons_of_mem _ hc)
    cases t with
    | lit c =>
      have hc : regexOrdinary c = true := hord c (List.mem_cons_self _ _)
      have hcdot : c ≠ '.' := by
        intro h
        subst h
        exact absurd hc (by decide)
      intro s
      cases s with
      | nil =>
        have hstep : rcap (PTok.lit c :: ts) ([] : List Char) = none := by
          simp [rcap]
        rw [show rtest (PTok.lit c :: ts) ([] : List Char)
            = (rcap (PTok.lit c :: ts) ([] : List Char)).isSome from rfl, hstep]
        simp only [Option.isSome_none, Bool.false_eq_true, false_iff]
        intro h
        cases h
      | cons x xs =>
        by_cases hcx : c = x
        · subst hcx
          have hm : charLitMatch c c = true := by
            simp [charLitMatch, hcdot]
          have hstep : rcap (PTok.lit c :: ts) (c :: xs) = rcap ts xs := by
            simp [rcap, hm]
          rw [show rtest (PTok.lit c :: ts) (c :: xs)
              = (rcap (PTok.lit c :: ts) (c :: xs)).isSome from rfl, hstep]
          rw [show ((rcap ts xs).isSome = true ↔ SegMatch ts xs) from ih hord' xs]
          constructor
          · exact fun h => SegMatch.lit c ts xs h
          · intro h
            cases h with
            | lit _ _ _ h => exact h
        · have hm : ¬ (charLitMatch c x = true) := by
            simp only [charLitMatch, if_neg hcdot]
            simp [hcx]
          have hstep : rcap (PTok.lit c :: ts) (x :: xs) = none := by
            simp [rcap, hm]
          rw [show rtest (PTok.lit c :: ts) (x :: xs)
              = (rcap (PTok.lit c :: ts) (x :: xs)).isSome from rfl, hstep]
          simp only [Option.isSome_none, Bool.false_eq_true, false_iff]
          intro h
          cases h with
          | lit _ _ _ _ => exact hcx rfl
    | param =>
      intro s
      rw [show rtest (PTok.param :: ts) s
          = (rcap (PTok.param :: ts) s).isSome from rfl]
      rw [rcap_param_isSome]
      constructor
      · rintro ⟨a, b, rfl, hne, ha, hb⟩
        exact SegMatch.param a ts b hne ha ((ih hord' b).mp hb)
      · intro h
        cases h with
        | param seg _ s' hne hsl hrest =>
          exact ⟨seg, s', rfl, hne, hsl, (ih hord' s').mpr hrest⟩

/-! ### Claim theorems -/

/-- C6, counterexample: the claim asserts that `null` (a non-string
primitive) gets `Content-Type: text/plain` with string conversion; in the
code `typeof null === 'object'`, so the Response Writer sends `null` with
`Content-Type: application/json` and JSON serialization. -/
theorem c6_counterexample :
    send .vNull 200 = ⟨200, "application/json", "null"⟩
    ∧ (send .vNull 200).contentType ≠ "text/plain" := by
  refine ⟨?_, ?_⟩ <;> simp [send, isObjType, jsonStringify]

/-- C6 as amended: the Response Writer sets `application/json` with exact
JSON serialization for values whose `typeof` is `'object'` — objects,
arrays, and also `null` — and `text/plain` with string conversion for
strings, numbers, booleans and `undefined`. -/
theorem c6_amended (v : JSValue) (s : Nat) :
    ((∃ fs, v = .vObj fs) ∨ (∃ l, v = .vArr l) ∨ v = .vNull →
        send v s = ⟨s, "application/json", jsonStringify v⟩)
    ∧ ((∃ str, v = .vStr str) ∨ (∃ n, v = .vNum n) ∨ (∃ b, v = .vBool b)
          ∨ v = .vUndefined →
        send v s = ⟨s, "text/plain", jsToString v⟩) := by
  constructor
  · rintro (⟨fs, rfl⟩ | ⟨l, rfl⟩ | rfl) <;> simp [send, isObjType]
  · rintro (⟨str, rfl⟩ | ⟨n, rfl⟩ | ⟨b, rfl⟩ | rfl) <;> simp [send, isObjType]

/-- C6, witness: a structured object is sent as JSON and a string as
plain text, by the amended theorem. -/
theorem c6_witness :
    send (.vObj [("a", .vNum 1)]) 201
        = ⟨201, "application/json", jsonStringify (.vObj [("a", .vNum 1)])⟩
    ∧ send (.vStr "hello") 200 = ⟨200, "text/plain", jsToString (.vStr "hello")⟩ :=
  ⟨(c6_amended (.vObj [("a", .vNum 1)]) 201).1 (Or.inl ⟨_, rfl⟩),
   (c6_amended (.vStr "hello") 200).2 (Or.inl ⟨_, rfl⟩)⟩

/-- C2, counterexample: the claim asserts the 500 body includes the
triggering error's message also on the rejected-promise path; the code's
rejection handler sends the fixed body `{"error":"Internal Server Error"}`
— two handlers rejecting with different messages produce identical
responses, and the body does not contain the message `"boom"`. -/
theorem c2_counterexample :
    executeHandler
        [("GET", [("/boom", Handler.func (fun _ _ => .asyncReject "boom"))])]
        initDynamic (initReq "GET" "/boom" "")
      = executeHandler
          [("GET", [("/boom",
             Handler.func (fun _ _ => .asyncReject "a different message"))])]
          initDynamic (initReq "GET" "/boom" "")
    ∧ (executeHandler
        [("GET", [("/boom", Handler.func (fun _ _ => .asyncReject "boom"))])]
        initDynamic (initReq "GET" "/boom" "")).body
      = "\x7b\"error\":\"Internal Server Error\"\x7d" := by
  constructor
  · simp [executeHandler, handlerAndParams, lookupStatic, lookupObj,
      optHandlerTruthy, handlerTruthy, runHandler, inputOf, initReq, send,
      isObjType, jsonStringify, fieldItems, jsStringEscape, escChar,
      String.intercalate]
  · simp [executeHandler, handlerAndParams, lookupStatic, lookupObj,
      optHandlerTruthy, handlerTruthy, runHandler, inputOf, initReq, send,
      isObjType, jsonStringify, fieldItems, jsStringEscape, escChar,
      String.intercalate]
    decide

/-- C2 as amended: a route handler failure is answered with status 500 and
a JSON body, but the two failure paths differ — a synchronous throw is
answered with the serialization of
`{ error: "Internal Server Error", details: error.message }` (the message
included, no stack trace), while a rejected promise is answered with the
fixed body `{"error":"Internal Server Error"}`, which does not include the
message. -/
theorem c2_amended (sr : StaticTable) (dr : DynTable) (req : Req)
    (f : JSValue → Req → HandlerRes) (msg : String)
    (hs : lookupStatic sr req.method req.pathname = some (.func f)) :
    (f (inputOf { req with params := [] }) { req with params := [] }
        = .syncThrow msg →
      executeHandler sr dr req
        = send (.vObj [("error", .vStr "Internal Server Error"),
                       ("details", .vStr msg)]) 500)
    ∧ (f (inputOf { req with params := [] }) { req with params := [] }
        = .asyncReject msg →
      executeHandler sr dr req
        = ⟨500, "application/json",
           "\x7b\"error\":\"Internal Server Error\"\x7d"⟩) := by
  constructor
  · intro hf
    simp [executeHandler, handlerAndParams, hs, optHandlerTruthy,
      handlerTruthy, runHandler, hf]
  · intro hf
    simp [executeHandler, handlerAndParams, hs, optHandlerTruthy,
      handlerTruthy, runHandler, hf, send, isObjType, jsonStringify,
      fieldItems, jsStringEscape, escChar, String.intercalate,
      String.intercalate.go]
    decide

/-- C2, witness: a concrete handler that throws synchronously with message
`boom` yields the 500 body carrying the message under `details`; a
concrete handler that rejects with the same message yields the fixed 500
body without it. -/
theorem c2_witness :
    executeHandler
        [("GET", [("/w", Handler.func (fun _ _ => .syncThrow "boom"))])]
        initDynamic (initReq "GET" "/w" "")
      = ⟨500, "application/json",
         "\x7b\"error\":\"Internal Server Error\",\"details\":\"boom\"\x7d"⟩
    ∧ executeHandler
        [("GET", [("/w", Handler.func (fun _ _ => .asyncReject "boom"))])]
        initDynamic (initReq "GET" "/w" "")
      = ⟨500, "application/json",
         "\x7b\"error\":\"Internal Server Error\"\x7d"⟩ := by
  constructor
  · have h := (c2_amended
      [("GET", [("/w", Handler.func (fun _ _ => .syncThrow "boom"))])]
      initDynamic (initReq "GET" "/w" "")
      (fun _ _ => .syncThrow "boom") "boom"
      (by simp [lookupStatic, lookupObj, initReq])).1 rfl
    rw [h]
    simp [send, isObjType, jsonStringify, fieldItems, jsStringEscape,
      escChar, String.intercalate, String.intercalate.go]
    decide
  · exact (c2_amended
      [("GET", [("/w", Handler.func (fun _ _ => .asyncReject "boom"))])]
      initDynamic (initReq "GET" "/w" "")
      (fun _ _ => .asyncReject "boom") "boom"
      (by simp [lookupStatic, lookupObj, initReq])).2 rfl

/-- C8 (confirmed): `req.query` is built once per request from the query
string as a string-to-string mapping, and on duplicate keys the value of
the last occurrence in the query string is the one stored. -/
theorem c8_query_last_wins (method pathname qs k : String) :
    (initReq method pathname qs).query = queryOf qs
    ∧ lookupObj ((initReq method pathname qs).query) k
        = ((searchParamsPairs qs).reverse.find?
            (fun e => decide (e.1 = k))).map Prod.snd :=
  ⟨rfl, queryOf_last_wins qs k⟩

/-- C4 (confirmed): middleware run in registration order; each one
returning `undefined` produces no response and the chain continues; the
first one returning a non-`undefined` value stops the pipeline — exactly
the preceding middleware and itself have executed, the value is sent as
the response with status 200, and neither later middleware nor any route
handler runs (the dispatch outcome is that response for every route table
and body). -/
theorem c4_first_responder_wins (pre : List Mw) (m : Mw) (post : List Mw)
    (method pathname qs : String) (v : JSValue)
    (hpre : ∀ mw ∈ pre, mw (initReq method pathname qs) = .ret .vUndefined)
    (hm : m (initReq method pathname qs) = .ret v)
    (hv : v ≠ .vUndefined) :
    runMw (pre ++ m :: post) (initReq method pathname qs) = some (send v 200)
    ∧ mwExecCount (pre ++ m :: post) (initReq method pathname qs)
        = pre.length + 1
    ∧ ∀ (parse : String → Option JSValue) (sr : StaticTable) (dr : DynTable)
        (chunks : List String),
        dispatch parse (pre ++ m :: post) sr dr method pathname qs chunks
          = .response (send v 200) := by
  have happ := runMw_append pre (m :: post) (initReq method pathname qs) hpre
  have hstop := runMw_stop m post (initReq method pathname qs) v hm hv
  refine ⟨?_, ?_, ?_⟩
  · rw [happ.1, hstop.1]
  · rw [happ.2, hstop.2]
  · intro parse sr dr chunks
    simp only [dispatch, happ.1, hstop.1]

/-- C4, witness: with one passing middleware, one responding middleware
and one later middleware, exactly two middleware run, the response is the
second middleware's value with status 200, and the route handler of a
registered route is never consulted. -/
theorem c4_witness :
    runMw
      [fun _ => .ret .vUndefined, fun _ => .ret (.vStr "stop"),
       fun _ => .ret (.vStr "late")]
      (initReq "GET" "/" "") = some (send (.vStr "stop") 200)
    ∧ mwExecCount
        [fun _ => .ret .vUndefined, fun _ => .ret (.vStr "stop"),
         fun _ => .ret (.vStr "late")]
        (initReq "GET" "/" "") = 2
    ∧ dispatch (fun _ => none)
        [fun _ => .ret .vUndefined, fun _ => .ret (.vStr "stop"),
         fun _ => .ret (.vStr "late")]
        initStatic initDynamic "GET" "/" "" []
        = .response (send (.vStr "stop") 200) := by
  have h := c4_first_responder_wins
    [fun _ => .ret .vUndefined] (fun _ => .ret (.vStr "stop"))
    [fun _ => .ret (.vStr "late")] "GET" "/" "" (.vStr "stop")
    (by
      intro mw hmw
      rw [List.mem_singleton] at hmw
      subst hmw
      rfl)
    rfl
    (fun hcontra => JSValue.noConfusion hcontra)
  exact ⟨h.1, h.2.1, h.2.2 (fun _ => none) initStatic initDynamic []⟩

/-- C1 (confirmed): when a static route is registered at exactly
(method, path), resolution returns the static handler — the response is
the static handler's response for every dynamic table, in particular when
some dynamic pattern also matches the path; the dynamic list is never
consulted.  (Registration only ever stores truthy handlers, so the static
lookup hit always passes the `if (!handler)` check.) -/
theorem c1_static_over_dynamic (defs : List RouteDef) (req : Req) (h : Handler)
    (hs : lookupStatic (registerRoutes defs).1 req.method req.pathname = some h)
    (hd : ∃ r ∈ (lookupObj (registerRoutes defs).2 req.method).getD [],
            rtest r.regex req.pathname.data = true) :
    executeHandler (registerRoutes defs).1 (registerRoutes defs).2 req
      = runHandler h { req with params := [] }
    ∧ ∀ dr' : DynTable,
        executeHandler (registerRoutes defs).1 dr' req
          = runHandler h { req with params := [] } := by
  have ht : handlerTruthy h = true := registerRoutes_truthy defs _ _ _ hs
  have hp : ∀ dr0 : DynTable,
      handlerAndParams (registerRoutes defs).1 dr0 req.method req.pathname
        = (some h, []) := by
    intro dr0
    simp [handlerAndParams, hs, optHandlerTruthy, ht]
  constructor
  · simp [executeHandler, hp _, ht]
  · intro dr'
    simp [executeHandler, hp _, ht]

/-- C1, witness: with a static route at `GET /a` and a dynamic route
`GET /:x` whose pattern also matches `/a`, dispatching `GET /a` returns
the static handler's literal response. -/
theorem c1_witness :
    executeHandler
      (registerRoutes
        [⟨some "/a", [("GET", Handler.value (.vStr "s"))]⟩,
         ⟨some "/:x", [("GET", Handler.value (.vStr "d"))]⟩]).1
      (registerRoutes
        [⟨some "/a", [("GET", Handler.value (.vStr "s"))]⟩,
         ⟨some "/:x", [("GET", Handler.value (.vStr "d"))]⟩]).2
      (initReq "GET" "/a" "")
      = ⟨200, "text/plain", "s"⟩ := by
  have h := c1_static_over_dynamic
    [⟨some "/a", [("GET", Handler.value (.vStr "s"))]⟩,
     ⟨some "/:x", [("GET", Handler.value (.vStr "d"))]⟩]
    (initReq "GET" "/a" "") (Handler.value (.vStr "s"))
    (by
      simp [registerRoutes, registerOne, registerMethod, initStatic,
        initDynamic, lookupStatic, lookupObj, updateKey, setKey, hasColon,
        handlerTruthy, jsTruthy, initReq])
    (by
      refine ⟨⟨pathToRegex ("/:x" : String).data,
        getParamNames ("/:x" : String).data, Handler.value (.vStr "d")⟩,
        ?_, ?_⟩
      · simp [registerRoutes, registerOne, registerMethod, initStatic,
          initDynamic, lookupObj, updateKey, setKey, hasColon,
          handlerTruthy, jsTruthy, initReq]
      · simp [pathToRegex, isWordChar, rtest, rcap, pcap, charLitMatch,
          lineTerm, initReq])
  rw [h.1]
  simp [runHandler, send, isObjType, jsToString]

/-- C9, counterexample: the claim says registration stores a falsy literal
handler and resolution then skips it; in fact `registerRoutes`'s
`if (routeDef[method])` guard never stores a falsy handler at all — after
registering `GET /x` with the empty-string handler, the static table has
no entry for `/x` — and the request still falls through to a 404. -/
theorem c9_counterexample :
    lookupStatic
      (registerRoutes [⟨some "/x", [("GET", Handler.value (.vStr ""))]⟩]).1
      "GET" "/x" = none
    ∧ dispatch (fun _ => none) []
        (registerRoutes [⟨some "/x", [("GET", Handler.value (.vStr ""))]⟩]).1
        (registerRoutes [⟨some "/x", [("GET", Handler.value (.vStr ""))]⟩]).2
        "GET" "/x" "" []
      = .response notFoundResp := by
  constructor
  · simp [registerRoutes, registerOne, registerMethod, initStatic,
      initDynamic, lookupStatic, lookupObj, hasColon, handlerTruthy,
      jsTruthy]
  · simp [dispatch, runMw, registerRoutes, registerOne, registerMethod,
      initStatic, initDynamic, executeHandler, handlerAndParams,
      lookupStatic, lookupObj, optHandlerTruthy, findDyn, hasColon,
      handlerTruthy, jsTruthy, initReq]

/-- C9 as amended: a route definition whose handlers are all falsy is
skipped entirely by registration (the tables are unchanged, nothing is
stored); and independently, had the static table held a falsy handler,
`executeHandler`'s truthiness check would treat it as absent, fall
through to the dynamic list, and answer 404 when no pattern matches. -/
theorem c9_falsy_handlers (t : StaticTable × DynTable) (rd : RouteDef)
    (hfalsy : ∀ m h, lookupObj rd.entries m = some h →
      handlerTruthy h = false) :
    registerOne t rd = t
    ∧ ∀ (sr : StaticTable) (dr : DynTable) (req : Req) (h : Handler),
        lookupStatic sr req.method req.pathname = some h →
        handlerTruthy h = false →
        findDyn ((lookupObj dr req.method).getD []) req.pathname.data = none →
        executeHandler sr dr req = notFoundResp := by
  constructor
  · cases hpath : rd.path with
    | none => simp [registerOne, hpath]
    | some p =>
      by_cases hp : p = ""
      · simp [registerOne, hpath, hp]
      · have hstep : ∀ (t0 : StaticTable × DynTable) (m : String),
            registerMethod p rd t0 m = t0 := by
          intro t0 m
          cases he : lookupObj rd.entries m with
          | none => simp [registerMethod, he]
          | some hh => simp [registerMethod, he, hfalsy m hh he]
        have hfold : ∀ (l : List String) (t0 : StaticTable × DynTable),
            l.foldl (registerMethod p rd) t0 = t0 := by
          intro l
          induction l with
          | nil => intro t0; rfl
          | cons a l ih =>
            intro t0
            rw [List.foldl_cons, hstep t0 a]
            exact ih t0
        simp [registerOne, hpath, hp, hfold]
  · intro sr dr req h hl hfalse hdyn
    simp [executeHandler, handlerAndParams, hl, optHandlerTruthy, hfalse,
      hdyn]

/-- C9, witness: registering `GET /x` with the empty-string handler leaves
the initially empty tables unchanged, and a static table that does hold
that falsy handler still dispatches `GET /x` to 404 when no dynamic
pattern matches. -/
theorem c9_witness :
    registerOne (initStatic, initDynamic)
        ⟨some "/x", [("GET", Handler.value (.vStr ""))]⟩
      = (initStatic, initDynamic)
    ∧ executeHandler [("GET", [("/x", Handler.value (.vStr ""))])]
        initDynamic (initReq "GET" "/x" "") = notFoundResp := by
  have h := c9_falsy_handlers (initStatic, initDynamic)
    ⟨some "/x", [("GET", Handler.value (.vStr ""))]⟩
    (by
      intro m hh hm
      simp [lookupObj] at hm
      rcases hm with ⟨hgm, hv⟩
      rw [← hv]
      decide)
  refine ⟨h.1, h.2 _ _ _ (Handler.value (.vStr "")) rfl (by decide) rfl⟩

/-- C10 (confirmed): for a request whose method is outside
GET/POST/PUT/DELETE, route lookup is total (the optional-chaining static
access and the `|| []` dynamic fallback both yield nothing), no body is
read (the outcome is the same for every chunk stream), and the response
is 404 with body `{"error":"Not Found"}`, whatever routes are
registered. -/
theorem c10_unknown_method (parse : String → Option JSValue) (mws : List Mw)
    (defs : List RouteDef) (method pathname qs : String) (chunks : List String)
    (hmeth : method ∉ (["GET", "POST", "PUT", "DELETE"] : List String))
    (hmw : ∀ mw ∈ mws, mw (initReq method pathname qs) = .ret .vUndefined) :
    dispatch parse mws (registerRoutes defs).1 (registerRoutes defs).2
        method pathname qs chunks
      = .response notFoundResp
    ∧ notFoundResp = ⟨404, "application/json", "\x7b\"error\":\"Not Found\"\x7d"⟩
    ∧ ∀ chunks' : List String,
        dispatch parse mws (registerRoutes defs).1 (registerRoutes defs).2
            method pathname qs chunks'
          = dispatch parse mws (registerRoutes defs).1 (registerRoutes defs).2
              method pathname qs chunks := by
  have hkeys := registerRoutes_unknown_method defs method hmeth
  have hrun := runMw_continue mws _ hmw
  have hpost : ¬ (method = "POST") := by
    intro hx
    subst hx
    exact hmeth (by simp)
  have hput : ¬ (method = "PUT") := by
    intro hx
    subst hx
    exact hmeth (by simp)
  have hstat : lookupStatic (registerRoutes defs).1 method pathname = none := by
    unfold lookupStatic
    rw [hkeys.1]
  have hexec : executeHandler (registerRoutes defs).1 (registerRoutes defs).2
      (initReq method pathname qs) = notFoundResp := by
    simp [executeHandler, handlerAndParams, initReq, hstat, optHandlerTruthy,
      hkeys.2, findDyn]
  refine ⟨?_, ?_, ?_⟩
  · simp [dispatch, hrun, hpost, hput, hexec]
  · simp [notFoundResp, send, isObjType, jsonStringify, fieldItems,
      jsStringEscape, escChar, String.intercalate, String.intercalate.go]
    decide
  · intro chunks'
    simp [dispatch, hrun, hpost, hput]

/-- C10, witness: a PATCH request against tables holding a `GET /a` route
responds 404 with the structured body, and the outcome ignores any body
chunks. -/
theorem c10_witness :
    dispatch (fun _ => none) []
        (registerRoutes [⟨some "/a", [("GET", Handler.value (.vStr "s"))]⟩]).1
        (registerRoutes [⟨some "/a", [("GET", Handler.value (.vStr "s"))]⟩]).2
        "PATCH" "/a" "" ["body-bytes"]
      = .response notFoundResp
    ∧ notFoundResp = ⟨404, "application/json", "\x7b\"error\":\"Not Found\"\x7d"⟩ := by
  have h := c10_unknown_method (fun _ => none) []
    [⟨some "/a", [("GET", Handler.value (.vStr "s"))]⟩]
    "PATCH" "/a" "" ["body-bytes"]
    (by decide)
    (by intro mw hmw; exact absurd hmw (List.not_mem_nil mw))
  exact ⟨h.1, h.2.1⟩

/-- C3 (confirmed): for POST/PUT requests, an accumulated body of at most
1,000,000 bytes (in particular exactly 1,000,000) is accepted and the
request is processed normally through body parsing and routing; any
accumulation exceeding 1,000,000 bytes destroys the connection and no
response frame is produced. -/
theorem c3_body_size_boundary (parse : String → Option JSValue)
    (mws : List Mw) (sr : StaticTable) (dr : DynTable)
    (method pathname qs : String) (chunks : List String)
    (hmeth : method = "POST" ∨ method = "PUT")
    (hmw : ∀ mw ∈ mws, mw (initReq method pathname qs) = .ret .vUndefined) :
    (totalLen chunks ≤ MAX_BODY_SIZE →
      dispatch parse mws sr dr method pathname qs chunks
        = .response (executeHandler sr dr
            { initReq method pathname qs with
                body := some (parsedBody parse (concatChunks chunks)) }))
    ∧ (MAX_BODY_SIZE < totalLen chunks →
      dispatch parse mws sr dr method pathname qs chunks = .destroyed) := by
  have hrun := runMw_continue mws _ hmw
  constructor
  · intro hsz
    have hrb := readBody_complete chunks hsz
    rcases hmeth with rfl | rfl <;> simp [dispatch, hrun, hrb]
  · intro hsz
    have hrb := readBody_overflow chunks hsz
    rcases hmeth with rfl | rfl <;> simp [dispatch, hrun, hrb]

/-- C3, witness: a single chunk of exactly 1,000,000 characters is
accepted and dispatched to the route handler stage; a single chunk of
1,000,001 characters destroys the connection. -/
theorem c3_witness :
    dispatch (fun _ => none) [] initStatic initDynamic "POST" "/" ""
        [String.mk (List.replicate 1000000 'a')]
      = .response (executeHandler initStatic initDynamic
          { initReq "POST" "/" "" with
              body := some (parsedBody (fun _ => none)
                (concatChunks [String.mk (List.replicate 1000000 'a')])) })
    ∧ dispatch (fun _ => none) [] initStatic initDynamic "POST" "/" ""
        [String.mk (List.replicate 1000001 'a')]
      = .destroyed := by
  constructor
  · exact (c3_body_size_boundary (fun _ => none) [] initStatic initDynamic
      "POST" "/" "" [String.mk (List.replicate 1000000 'a')]
      (Or.inl rfl)
      (by intro mw hmw; exact absurd hmw (List.not_mem_nil mw))).1
      (by
        have hgen : ∀ s : String, totalLen [s] = s.length := by
          intro s
          simp [totalLen]
        have hmk : (String.mk (List.replicate 1000000 'a')).length
            = (List.replicate 1000000 'a').length := rfl
        rw [hgen, hmk, List.length_replicate]
        exact Nat.le_refl MAX_BODY_SIZE)
  · exact (c3_body_size_boundary (fun _ => none) [] initStatic initDynamic
      "POST" "/" "" [String.mk (List.replicate 1000001 'a')]
      (Or.inl rfl)
      (by intro mw hmw; exact absurd hmw (List.not_mem_nil mw))).2
      (by
        have hgen : ∀ s : String, totalLen [s] = s.length := by
          intro s
          simp [totalLen]
        have hmk : (String.mk (List.replicate 1000001 'a')).length
            = (List.replicate 1000001 'a').length := rfl
        rw [hgen, hmk, List.length_replicate]
        show MAX_BODY_SIZE < 1000001
        decide)

/-- C7 (confirmed): for POST/PUT requests under the size cap, a non-empty
body that fails to parse as JSON is swallowed — `req.body` becomes the
empty object and dispatch proceeds normally to route resolution and
handler execution — and an empty accumulated body likewise yields the
empty object. -/
theorem c7_parse_error_swallowed (parse : String → Option JSValue)
    (mws : List Mw) (sr : StaticTable) (dr : DynTable)
    (method pathname qs : String) (chunks : List String)
    (hmeth : method = "POST" ∨ method = "PUT")
    (hmw : ∀ mw ∈ mws, mw (initReq method pathname qs) = .ret .vUndefined)
    (hsz : totalLen chunks ≤ MAX_BODY_SIZE) :
    (concatChunks chunks ≠ "" → parse (concatChunks chunks) = none →
      dispatch parse mws sr dr method pathname qs chunks
        = .response (executeHandler sr dr
            { initReq method pathname qs with body := some (.vObj []) }))
    ∧ (concatChunks chunks = "" →
      dispatch parse mws sr dr method pathname qs chunks
        = .response (executeHandler sr dr
            { initReq method pathname qs with body := some (.vObj []) })) := by
  have hrun := runMw_continue mws _ hmw
  have hrb := readBody_complete chunks hsz
  constructor
  · intro hne hparse
    have hpb : parsedBody parse (concatChunks chunks) = .vObj [] := by
      simp [parsedBody, hne, hparse]
    rcases hmeth with rfl | rfl <;> simp [dispatch, hrun, hrb, hpb]
  · intro hempty
    have hpb : parsedBody parse (concatChunks chunks) = .vObj [] := by
      simp [parsedBody, hempty]
    rcases hmeth with rfl | rfl <;> simp [dispatch, hrun, hrb, hpb]

/-- C7, witness: a POST whose accumulated body is the non-JSON text
`not json` (with a parse oracle that rejects it) proceeds to routing with
the empty-object body, and so does a POST with no body at all. -/
theorem c7_witness :
    dispatch (fun _ => none) [] initStatic initDynamic "POST" "/" ""
        ["not json"]
      = .response (executeHandler initStatic initDynamic
          { initReq "POST" "/" "" with body := some (.vObj []) })
    ∧ dispatch (fun _ => none) [] initStatic initDynamic "POST" "/" "" []
      = .response (executeHandler initStatic initDynamic
          { initReq "POST" "/" "" with body := some (.vObj []) }) := by
  constructor
  · exact (c7_parse_error_swallowed (fun _ => none) [] initStatic initDynamic
      "POST" "/" "" ["not json"] (Or.inl rfl)
      (by intro mw hmw; exact absurd hmw (List.not_mem_nil mw))
      (by decide)).1 (by decide) rfl
  · exact (c7_parse_error_swallowed (fun _ => none) [] initStatic initDynamic
      "POST" "/" "" [] (Or.inl rfl)
      (by intro mw hmw; exact absurd hmw (List.not_mem_nil mw))
      (by decide)).2 rfl

/-- C5, counterexample: the claim says every non-marker character of the
path matches only itself literally, naming `.` specifically; but
`pathToRegex` inserts path characters into the regex unescaped, so the
pattern compiled from `/a.b` also matches the different concrete path
`/axb`. -/
theorem c5_counterexample :
    rtest (pathToRegex ("/a.b" : String).data) ("/axb" : String).data = true
    ∧ ("/axb" : String) ≠ "/a.b" := by
  constructor
  · simp [pathToRegex, isWordChar, rtest, rcap, pcap, charLitMatch, lineTerm]
  · decide

/-- C5 as amended: the compiled pattern is anchored at both ends and each
parameter marker matches exactly one nonempty run of non-slash
characters; but non-marker characters are placed in the regex unescaped,
so only regex-ordinary characters are guaranteed to match themselves
literally — for a path whose literal characters are all regex-ordinary,
the pattern matches a concrete path exactly when the whole path is the
token-wise concatenation prescribed by `SegMatch` (metacharacters such as
`.` instead match any non-line-terminator character, see the
counterexample). -/
theorem c5_anchored_literal_match (path : String) (s : List Char)
    (hord : ∀ c, PTok.lit c ∈ pathToRegex path.data → regexOrdinary c = true) :
    rtest (pathToRegex path.data) s = true ↔ SegMatch (pathToRegex path.data) s :=
  rtest_iff_SegMatch (pathToRegex path.data) hord s

/-- C5, witness: the pattern compiled from `/users/:id` matches
`/users/42` in the prescribed token-wise way. -/
theorem c5_witness :
    SegMatch (pathToRegex ("/users/:id" : String).data)
      ("/users/42" : String).data := by
  have hpr : pathToRegex ("/users/:id" : String).data
      = [.lit '/', .lit 'u', .lit 's', .lit 'e', .lit 'r', .lit 's',
         .lit '/', .param] := by
    simp [pathToRegex, isWordChar]
  refine (c5_anchored_literal_match "/users/:id" ("/users/42" : String).data
    ?_).mp ?_
  · intro c hc
    rw [hpr] at hc
    simp only [List.mem_cons, List.not_mem_nil, or_false] at hc
    rcases hc with h | h | h | h | h | h | h | h
    all_goals first
      | (cases h; decide)
      | exact PTok.noConfusion h
  · rw [hpr]
    simp [rtest, rcap, pcap, charLitMatch, lineTerm]
